import Mathlib

/-!
A shallow embedding of the cxxio stream-handle library (`include/cxxio.hpp`).

Streams are modelled as explicit state: a `Flags` record mirrors the C++
`iostate` bits, file systems are association lists from names to byte lists,
and the compression codec (bxzstr) is an external collaborator modelled as a
pair of functions.  Two C++ facts drive the state transitions:
`std::basic_ios::rdbuf(sb)` clears the error state before `setstate` ORs the
new bits in, and stream sentries set `failbit` when the stream is not good.
-/

namespace Cxxio

/-- State bits of `std::ios_base::iostate` carried by every stream. -/
structure Flags where
  eofbit : Bool
  failbit : Bool
  badbit : Bool
deriving DecidableEq, Repr

/-- State with no bit set (`std::ios_base::goodbit`). -/
def Flags.goodbit : Flags := ⟨false, false, false⟩

/-- State with only `failbit` set, as left by a failed stream construction. -/
def Flags.failOnly : Flags := ⟨false, true, false⟩

/-- Result of `stream.good()`: no bit set. -/
def Flags.good (f : Flags) : Bool := !f.eofbit && !f.failbit && !f.badbit

/-- Result of `!stream` (equivalently `stream.fail()`): failbit or badbit. -/
def Flags.failQ (f : Flags) : Bool := f.failbit || f.badbit

/-- Effect of `setstate`: OR the given bits onto the current state. -/
def Flags.orWith (a b : Flags) : Flags :=
  ⟨a.eofbit || b.eofbit, a.failbit || b.failbit, a.badbit || b.badbit⟩

/-- Spec wording: a hard failure is a state that is neither good nor
end-of-stream (`eofbit` clear yet not good). -/
def Flags.hardFailure (f : Flags) : Prop := f.good = false ∧ f.eofbit = false

/-- Errors thrown by the library: the `cxxio::exceptions` taxonomy plus the
plain `std::runtime_error` used by `In::open` and by the generic operators. -/
inductive Err where
  | file_not_writable (name : String)
  | cannot_read_from_file (name : String)
  | directory_does_not_exist (path : String)
  | runtime_error (msg : String)
deriving DecidableEq, Repr

/-- Whether an operation modelled in `Except Err` throws. -/
def raises {α : Type} : Except Err α → Bool
  | .error _ => true
  | .ok _ => false

instance {ε α : Type} [DecidableEq ε] [DecidableEq α] : DecidableEq (Except ε α) :=
  fun a b =>
    match a, b with
    | .error e, .error f =>
      if h : e = f then isTrue (by rw [h])
      else isFalse (fun hc => h (by cases hc; rfl))
    | .error _, .ok _ => isFalse (fun hc => Except.noConfusion hc)
    | .ok _, .error _ => isFalse (fun hc => Except.noConfusion hc)
    | .ok x, .ok y =>
      if h : x = y then isTrue (by rw [h])
      else isFalse (fun hc => h (by cases hc; rfl))

/-- The bxzstr compression codec, an external collaborator: a writer
`compress kind level` and an auto-detecting reader `decompress`. -/
structure Codec where
  compress : Nat → Nat → List Char → List Char
  decompress : List Char → List Char

/-- The trivial codec, usable as a concrete collaborator instance. -/
def idCodec : Codec := ⟨fun _ _ d => d, fun d => d⟩

/-- Readable files: an association list from file names to raw byte contents. -/
abbrev FS := List (String × List Char)

/-- Contents of a named file, if present. -/
def fsRead : FS → String → Option (List Char)
  | [], _ => none
  | (n, v) :: rest, name => if n = name then some v else fsRead rest name

/-- An owned `bxz::ifstream`: decompressed contents, read position, own state. -/
structure OwnedIn where
  content : List Char
  pos : Nat
  flags : Flags
deriving DecidableEq, Repr

/-- Construction of `bxz::ifstream(filename)`: auto-detects and decompresses
on success; sets `failbit` when the file cannot be opened. -/
def mkIfstream (codec : Codec) (fs : FS) (name : String) : OwnedIn :=
  match fsRead fs name with
  | some raw => ⟨codec.decompress raw, 0, Flags.goodbit⟩
  | none => ⟨[], 0, Flags.failOnly⟩

/-- What the view stream `is` of an `In` handle points at. -/
inductive IBuf where
  | stdinBuf
  | stdoutBuf
  | ownedBuf
  | releasedBuf
deriving DecidableEq, Repr

/-- The `cxxio::In` handle: optional owned stream `byname`, the view stream
(its buffer pointer `ibuf` and its state `iflags`), and the stored name. -/
structure In where
  byname : Option OwnedIn
  ibuf : IBuf
  iflags : Flags
  myfile : String
deriving DecidableEq, Repr

/-- `In::reset_state(filename)`: replace the owned stream, repoint the view
buffer (`rdbuf` clears the view state) and `setstate` the new stream's bits. -/
def In.reset_state (codec : Codec) (fs : FS) (h : In) (filename : String) : In :=
  let b := mkIfstream codec fs filename
  { h with byname := some b, ibuf := IBuf.ownedBuf,
           iflags := Flags.goodbit.orWith b.flags }

/-- `In::open(filename)`: store the name, reset, and on failure throw — the
source throws a plain `std::runtime_error` here, not the taxonomy type. -/
def In.openFile (codec : Codec) (fs : FS) (h : In) (filename : String) : Except Err In :=
  let h1 := { h with myfile := filename }
  let h2 := In.reset_state codec fs h1 filename
  if h2.iflags.failQ then
    Except.error (Err.runtime_error ("Cannot read from file: " ++ filename ++ "."))
  else Except.ok h2

/-- `In::close()`: releases the owned stream only; the view keeps pointing at
the now-released buffer and the stored name is untouched. -/
def In.close (h : In) : In :=
  { h with byname := none,
           ibuf := if h.ibuf = IBuf.ownedBuf then IBuf.releasedBuf else h.ibuf }

/-- `In::rewind()`: re-run `reset_state` on the stored name, with no failure
check afterwards. -/
def In.rewind (codec : Codec) (fs : FS) (h : In) : In :=
  In.reset_state codec fs h h.myfile

/-- Default constructor `In(std::istream& = std::cin)`. -/
def In.mkDefault : In := ⟨none, IBuf.stdinBuf, Flags.goodbit, ""⟩

/-- Constructor `In(filename)`: the view is initialised from
`std::cout.rdbuf()` as a placeholder, then `open(filename)` runs. -/
def In.mkFromFile (codec : Codec) (fs : FS) (filename : String) : Except Err In :=
  In.openFile codec fs ⟨none, IBuf.stdoutBuf, Flags.goodbit, filename⟩ filename

/-- Move constructor `In(In&&)`: the view is initialised from
`std::cout.rdbuf()`; when the source name is non-empty the file is reopened
by name, otherwise nothing further happens. -/
def In.mkMove (codec : Codec) (fs : FS) (src : In) : Except Err In :=
  if src.myfile = "" then Except.ok ⟨none, IBuf.stdoutBuf, Flags.goodbit, ""⟩
  else In.openFile codec fs ⟨none, IBuf.stdoutBuf, Flags.goodbit, ""⟩ src.myfile

/-- One `std::getline(is, line)` call on the view stream: the sentry sets
`failbit` unless the stream is good; at the end of the data it sets `eofbit`
and `failbit`; a line that reaches the end of the file without finding a
delimiter sets `eofbit` only (characters were extracted).  Returns the
updated handle and the extracted line. -/
def In.getline (h : In) : In × List Char :=
  if h.iflags.good then
    match h.byname, h.ibuf with
    | some b, IBuf.ownedBuf =>
      let r := b.content.drop b.pos
      if r.isEmpty then
        ({ h with iflags := h.iflags.orWith ⟨true, true, false⟩ }, [])
      else
        let line := r.takeWhile (fun a => a != '\n')
        if line.length < r.length then
          ({ h with byname := some { b with pos := b.pos + line.length + 1 } }, line)
        else
          ({ h with byname := some { b with pos := b.pos + line.length },
                    iflags := h.iflags.orWith ⟨true, false, false⟩ }, line)
    | _, _ => ({ h with iflags := h.iflags.orWith ⟨false, false, true⟩ }, [])
  else ({ h with iflags := h.iflags.orWith Flags.failOnly }, [])

/-- The `while (std::getline(is, line)) n_lines += 1;` loop of `count_lines`,
with explicit fuel; any fuel beyond the remaining byte count is enough. -/
def countLoop : Nat → In → Nat → Nat × In
  | 0, h, n => (n, h)
  | fuel + 1, h, n =>
    if (In.getline h).1.iflags.failQ then (n, (In.getline h).1)
    else countLoop fuel (In.getline h).1 (n + 1)

/-- Fuel that always suffices to drive a getline loop to completion. -/
def In.loopFuel (h : In) : Nat :=
  match h.byname with
  | some b => b.content.length + 2
  | none => 2

/-- `In::count_lines<T>()`: run the getline loop to exhaustion, then always
rewind.  Returns the count together with the post-state of the handle. -/
def In.count_lines (codec : Codec) (fs : FS) (h : In) : Nat × In :=
  let r := countLoop h.loopFuel h 0
  (r.1, In.rewind codec fs r.2)

/-- Loop collecting every getline record until the stream fails. -/
def readLoop : Nat → In → List (List Char) → List (List Char) × In
  | 0, h, acc => (acc.reverse, h)
  | fuel + 1, h, acc =>
    if (In.getline h).1.iflags.failQ then (acc.reverse, (In.getline h).1)
    else readLoop fuel (In.getline h).1 ((In.getline h).2 :: acc)

/-- The sequence of lines a caller obtains by reading the handle to exhaustion. -/
def In.readLines (h : In) : List (List Char) := (readLoop h.loopFuel h []).1

/-- The byte sequence obtainable from the view stream by repeated `get()`
until end-of-stream. -/
def In.readAllBytes (h : In) : List Char :=
  match h.byname, h.ibuf with
  | some b, IBuf.ownedBuf => if h.iflags.good then b.content.drop b.pos else []
  | _, _ => []

/-- Decomposition of a byte list into getline records. -/
def splitLines : List Char → List (List Char)
  | [] => []
  | c :: cs =>
    let line := (c :: cs).takeWhile (fun a => a != '\n')
    line :: splitLines ((c :: cs).drop (line.length + 1))
termination_by s => s.length
decreasing_by
  simp only [List.length_drop, List.length_cons]
  omega

/-- Number of newline characters in a byte list. -/
def countNewlines : List Char → Nat
  | [] => 0
  | c :: cs => (if c = '\n' then 1 else 0) + countNewlines cs

/-- The handle state immediately after a successful open of `name` whose
decompressed content is `d`. -/
def In.openedOn (name : String) (d : List Char) : In :=
  ⟨some ⟨d, 0, Flags.goodbit⟩, IBuf.ownedBuf, Flags.goodbit, name⟩

/-- An owned output stream (`std::ofstream` or `bxz::ofstream`): target name,
optional compression parameters, bytes written so far, and own state. -/
structure OwnedOut where
  filename : String
  kind : Option (Nat × Nat)
  buffer : List Char
  flags : Flags
deriving DecidableEq, Repr

/-- What the view stream `os` of an `Out` handle points at. -/
inductive OBuf where
  | stdoutBuf
  | ownedBuf
deriving DecidableEq, Repr

/-- The writable world: the committed files and which targets can be opened
for writing (parent directory exists, permissions allow it). -/
structure World where
  files : FS
  writable : String → Bool

/-- Construction of an owned output stream; `failbit` set when the target
cannot be opened. -/
def mkOfstream (w : World) (name : String) (kind : Option (Nat × Nat)) : OwnedOut :=
  ⟨name, kind, [], if w.writable name then Flags.goodbit else Flags.failOnly⟩

/-- Bytes the stream puts on disk: compressed when it was constructed by
`open_compressed`, raw otherwise. -/
def OwnedOut.encode (codec : Codec) (b : OwnedOut) : List Char :=
  match b.kind with
  | none => b.buffer
  | some kl => codec.compress kl.1 kl.2 b.buffer

/-- Destroying an owned output stream flushes and finalises its file; no file
appears if the stream never opened. -/
def commitOut (codec : Codec) (w : World) (b : OwnedOut) : World :=
  if b.flags.failQ then w
  else { w with files := (b.filename, OwnedOut.encode codec b) :: w.files }

/-- The `cxxio::Out` handle: optional owned stream `byname`, the view stream
(buffer pointer `obuf`, state `oflags`), and the stored name. -/
structure Out where
  byname : Option OwnedOut
  obuf : OBuf
  oflags : Flags
  myfile : String
deriving DecidableEq, Repr

/-- Default constructor `Out(std::ostream& = std::cout)`. -/
def Out.mkDefault : Out := ⟨none, OBuf.stdoutBuf, Flags.goodbit, ""⟩

/-- `Out::open(filename)`: flush, replace the owned stream (destroying and
thereby committing the previous one), repoint the view (`rdbuf` clears its
state) and `setstate` the new stream's bits; throw `file_not_writable` on
failure.  The stored file name is left untouched. -/
def Out.openFile (codec : Codec) (w : World) (h : Out) (name : String) :
    Except Err (Out × World) :=
  let w1 := match h.byname with | some b => commitOut codec w b | none => w
  let nb := mkOfstream w1 name none
  let h1 : Out := { h with byname := some nb, obuf := OBuf.ownedBuf,
                           oflags := Flags.goodbit.orWith nb.flags }
  if h1.oflags.failQ then Except.error (Err.file_not_writable name)
  else Except.ok (h1, w1)

/-- `Out::open_compressed(filename, type, level)`: as `open`, but the owned
stream is a compressed writer of the given kind and level. -/
def Out.open_compressed (codec : Codec) (w : World) (h : Out) (name : String)
    (kind level : Nat) : Except Err (Out × World) :=
  let w1 := match h.byname with | some b => commitOut codec w b | none => w
  let nb := mkOfstream w1 name (some (kind, level))
  let h1 : Out := { h with byname := some nb, obuf := OBuf.ownedBuf,
                           oflags := Flags.goodbit.orWith nb.flags }
  if h1.oflags.failQ then Except.error (Err.file_not_writable name)
  else Except.ok (h1, w1)

/-- Constructor `Out(filename)`: the view is initialised directly from the
owned buffer pointer, which is non-null even for a failed open, so the view
state starts good and the constructor's throw guard cannot fire. -/
def Out.mkFromFile (w : World) (name : String) : Except Err (Out × World) :=
  let nb := mkOfstream w name none
  let h : Out := ⟨some nb, OBuf.ownedBuf, Flags.goodbit, name⟩
  if h.oflags.failQ then Except.error (Err.file_not_writable name)
  else Except.ok (h, w)

/-- `Out::close()`: flush, destroy the owned stream (committing its bytes),
repoint the view at `std::cout`'s buffer (`rdbuf` clears the view state) and
`setstate` `std::cout`'s state bits. -/
def Out.close (codec : Codec) (stdoutFl : Flags) (h : Out) (w : World) : Out × World :=
  let w1 := match h.byname with | some b => commitOut codec w b | none => w
  ({ h with byname := none, obuf := OBuf.stdoutBuf,
            oflags := Flags.goodbit.orWith stdoutFl }, w1)

/-- Effect of `os.stream() << bytes` on the view stream: the sentry sets
`failbit` unless the stream is good; otherwise the bytes go to the owned
buffer, or to the console sink when the view points at `std::cout`. -/
def Out.writeRaw (h : Out) (r : List Char) : Out :=
  if h.oflags.good then
    match h.obuf, h.byname with
    | OBuf.ownedBuf, some b => { h with byname := some { b with buffer := b.buffer ++ r } }
    | OBuf.stdoutBuf, _ => h
    | _, _ => { h with oflags := h.oflags.orWith ⟨false, false, true⟩ }
  else { h with oflags := h.oflags.orWith Flags.failOnly }

/-- Generic `operator<<(Out&, T)`: write the rendered value, then throw a
runtime error unless the resulting state is good or end-of-stream. -/
def outShift (h : Out) (ty : String) (r : List Char) : Except Err Out :=
  let h1 := Out.writeRaw h r
  if !h1.oflags.good && !h1.oflags.eofbit then
    Except.error (Err.runtime_error
      ("Error writing type: " ++ ty ++ " to file " ++ h1.myfile))
  else Except.ok h1

/-- Generic `operator>>(In&, T&)`: extraction of a `T` is an arbitrary state
transformation `ext` of the view stream; afterwards throw unless the
resulting state is good or end-of-stream (the source reuses the writing
message here). -/
def inShift (ext : In → In) (ty : String) (h : In) : Except Err In :=
  let h1 := ext h
  if !h1.iflags.good && !h1.iflags.eofbit then
    Except.error (Err.runtime_error
      ("Error writing type: " ++ ty ++ " to file " ++ h1.myfile))
  else Except.ok h1

/-! ### Auxiliary lemmas -/

theorem splitLines_nil : splitLines [] = [] := by rw [splitLines]

theorem splitLines_cons (x : Char) (xs : List Char) :
    splitLines (x :: xs) =
      (x :: xs).takeWhile (fun a => a != '\n')
        :: splitLines ((x :: xs).drop
            (((x :: xs).takeWhile (fun a => a != '\n')).length + 1)) := by
  rw [splitLines]

theorem In.getline_myfile (h : In) : (In.getline h).1.myfile = h.myfile := by
  unfold In.getline
  dsimp only
  repeat' split
  all_goals rfl

theorem countLoop_myfile (fuel : Nat) :
    ∀ (h : In) (n : Nat), ((countLoop fuel h n).2).myfile = h.myfile := by
  induction fuel with
  | zero => intro h n; rfl
  | succ fuel ih =>
    intro h n
    simp only [countLoop]
    split
    · exact In.getline_myfile h
    · rw [ih]; exact In.getline_myfile h


theorem Flags.failQ_goodbit : Flags.goodbit.failQ = false := rfl

theorem Flags.good_goodbit : Flags.goodbit.good = true := rfl

theorem getline_end (c : List Char) (p : Nat) (bfl : Flags) (name : String)
    (hr : (c.drop p).isEmpty = true) :
    In.getline ⟨some ⟨c, p, bfl⟩, IBuf.ownedBuf, Flags.goodbit, name⟩
      = (⟨some ⟨c, p, bfl⟩, IBuf.ownedBuf, ⟨true, true, false⟩, name⟩, []) := by
  unfold In.getline
  dsimp only
  rw [if_pos Flags.good_goodbit, if_pos hr]
  rfl

theorem getline_mid (c : List Char) (p : Nat) (bfl : Flags) (name : String)
    (hne : (c.drop p).isEmpty = false)
    (hlt : ((c.drop p).takeWhile (fun a => a != '\n')).length < (c.drop p).length) :
    In.getline ⟨some ⟨c, p, bfl⟩, IBuf.ownedBuf, Flags.goodbit, name⟩
      = (⟨some ⟨c, p + ((c.drop p).takeWhile (fun a => a != '\n')).length + 1, bfl⟩,
          IBuf.ownedBuf, Flags.goodbit, name⟩,
         (c.drop p).takeWhile (fun a => a != '\n')) := by
  unfold In.getline
  dsimp only
  rw [if_pos Flags.good_goodbit, if_neg (by simp [hne]), if_pos hlt]

theorem getline_tail (c : List Char) (p : Nat) (bfl : Flags) (name : String)
    (hne : (c.drop p).isEmpty = false)
    (hnl : ¬ ((c.drop p).takeWhile (fun a => a != '\n')).length < (c.drop p).length) :
    In.getline ⟨some ⟨c, p, bfl⟩, IBuf.ownedBuf, Flags.goodbit, name⟩
      = (⟨some ⟨c, p + ((c.drop p).takeWhile (fun a => a != '\n')).length, bfl⟩,
          IBuf.ownedBuf, ⟨true, false, false⟩, name⟩,
         (c.drop p).takeWhile (fun a => a != '\n')) := by
  unfold In.getline
  dsimp only
  rw [if_pos Flags.good_goodbit, if_neg (by simp [hne]), if_neg hnl]
  rfl

theorem getline_notgood (h : In) (hg : h.iflags.good = false) :
    In.getline h = ({ h with iflags := h.iflags.orWith Flags.failOnly }, []) := by
  unfold In.getline
  rw [if_neg (by simp [hg])]
theorem countLoop_run (fuel : Nat) :
    ∀ (c : List Char) (p n : Nat) (bfl : Flags) (name : String),
      (c.drop p).length + 2 ≤ fuel →
      (countLoop fuel ⟨some ⟨c, p, bfl⟩, IBuf.ownedBuf, Flags.goodbit, name⟩ n).1
        = n + (splitLines (c.drop p)).length := by
  induction fuel with
  | zero => intro c p n bfl name hf; omega
  | succ fuel ih =>
    intro c p n bfl name hf
    by_cases hr : c.drop p = []
    · have hr' : (c.drop p).isEmpty = true := by rw [hr]; rfl
      simp only [countLoop]
      rw [getline_end c p bfl name hr']
      simp [Flags.failQ, hr, splitLines_nil]
    · obtain ⟨x, xs, hx⟩ : ∃ x xs, c.drop p = x :: xs := by
        cases hcd : c.drop p with
        | nil => exact absurd hcd hr
        | cons x xs => exact ⟨x, xs, rfl⟩
      have hne : (c.drop p).isEmpty = false := by rw [hx]; rfl
      have hlen1 : 1 ≤ (c.drop p).length := by rw [hx]; simp
      by_cases hlt : ((c.drop p).takeWhile (fun a => a != '\n')).length < (c.drop p).length
      · -- delimiter found: position skips the newline, stream stays good
        have hdrop : c.drop (p + ((c.drop p).takeWhile (fun a => a != '\n')).length + 1)
            = (c.drop p).drop (((c.drop p).takeWhile (fun a => a != '\n')).length + 1) := by
          rw [List.drop_drop, Nat.add_assoc]
        have hrec := ih c (p + ((c.drop p).takeWhile (fun a => a != '\n')).length + 1)
            (n + 1) bfl name (by
          have h1 : ((c.drop p).drop (((c.drop p).takeWhile (fun a => a != '\n')).length + 1)).length
              = (c.drop p).length - (((c.drop p).takeWhile (fun a => a != '\n')).length + 1) :=
            List.length_drop _ _
          rw [hdrop, h1]
          omega)
        have hsplit : splitLines (c.drop p)
            = (c.drop p).takeWhile (fun a => a != '\n')
              :: splitLines ((c.drop p).drop
                  (((c.drop p).takeWhile (fun a => a != '\n')).length + 1)) := by
          rw [hx]; exact splitLines_cons x xs
        simp only [countLoop]
        rw [getline_mid c p bfl name hne hlt]
        simp only [Flags.failQ_goodbit, Bool.false_eq_true, if_false]
        rw [hrec, hdrop, hsplit, List.length_cons]
        omega
      · -- no delimiter: all consumed, eofbit set, the next getline fails
        obtain ⟨f2, hf2⟩ : ∃ f2, fuel = f2 + 1 := by
          cases fuel with
          | zero => omega
          | succ f2 => exact ⟨f2, rfl⟩
        subst hf2
        have hsp : (splitLines (c.drop p)).length = 1 := by
          have hle : ((c.drop p).takeWhile (fun a => a != '\n')).length ≤ (c.drop p).length :=
            (List.takeWhile_sublist _).length_le
          have hdz : (c.drop p).drop (((c.drop p).takeWhile (fun a => a != '\n')).length + 1)
              = [] := List.drop_eq_nil_of_le (by omega)
          have hsplit : splitLines (c.drop p)
              = (c.drop p).takeWhile (fun a => a != '\n')
                :: splitLines ((c.drop p).drop
                    (((c.drop p).takeWhile (fun a => a != '\n')).length + 1)) := by
            rw [hx]; exact splitLines_cons x xs
          rw [hsplit, hdz, splitLines_nil]
          rfl
        simp only [countLoop]
        rw [getline_tail c p bfl name hne hlt]
        simp only [Flags.failQ, Bool.false_or, Bool.or_false, if_false, Bool.false_eq_true]
        rw [getline_notgood _ (by rfl)]
        simp only [Flags.failQ, Flags.orWith, Flags.failOnly, Bool.or_true, Bool.true_or, if_true]
        rw [hsp]
theorem countNewlines_append (a b : List Char) :
    countNewlines (a ++ b) = countNewlines a + countNewlines b := by
  induction a with
  | nil => simp [countNewlines]
  | cons x xs ih =>
    show (if x = '\n' then 1 else 0) + countNewlines (xs ++ b)
      = ((if x = '\n' then 1 else 0) + countNewlines xs) + countNewlines b
    rw [ih]; omega

theorem countNewlines_eq_zero (l : List Char) (h : ∀ x ∈ l, x ≠ '\n') :
    countNewlines l = 0 := by
  induction l with
  | nil => rfl
  | cons x xs ih =>
    simp only [countNewlines]
    rw [if_neg (h x (by simp)), ih (fun y hy => h y (by simp [hy]))]

theorem newline_notMem_takeWhile (l : List Char) :
    ∀ x ∈ l.takeWhile (fun a => a != '\n'), x ≠ '\n' := by
  intro x hx
  have := List.mem_takeWhile_imp hx
  simpa using this

theorem splitLines_length_aux (N : Nat) :
    ∀ s : List Char, s.length ≤ N →
      (splitLines s).length
        = countNewlines s + (if s.getLast? = some '\n' ∨ s = [] then 0 else 1) := by
  induction N with
  | zero =>
    intro s hs
    have : s = [] := List.length_eq_zero.mp (Nat.le_antisymm hs (Nat.zero_le _))
    subst this
    simp [splitLines_nil, countNewlines]
  | succ N ih =>
    intro s hs
    cases s with
    | nil => simp [splitLines_nil, countNewlines]
    | cons x xs =>
      have hsd : (x :: xs).takeWhile (fun a => a != '\n')
          ++ (x :: xs).dropWhile (fun a => a != '\n') = x :: xs :=
        List.takeWhile_append_dropWhile _ _
      cases hdw : (x :: xs).dropWhile (fun a => a != '\n') with
      | nil =>
        -- no newline at all in the list
        have htw : (x :: xs).takeWhile (fun a => a != '\n') = x :: xs := by
          conv_rhs => rw [← hsd]
          rw [hdw, List.append_nil]
        have hnonl : ∀ y ∈ (x :: xs), y ≠ '\n' := by
          intro y hy
          exact newline_notMem_takeWhile (x :: xs) y (by rw [htw]; exact hy)
        have hdropnil : (x :: xs).drop
            (((x :: xs).takeWhile (fun a => a != '\n')).length + 1) = [] := by
          apply List.drop_eq_nil_of_le
          rw [htw]
          omega
        rw [splitLines_cons, hdropnil, splitLines_nil]
        have hcz : countNewlines (x :: xs) = 0 := countNewlines_eq_zero _ hnonl
        have hlast : ¬ ((x :: xs).getLast? = some '\n' ∨ (x :: xs) = []) := by
          rintro (hl | hl)
          · obtain ⟨hne, heq⟩ := List.mem_getLast?_eq_getLast (by rw [hl]; rfl)
            exact hnonl '\n' (heq ▸ List.getLast_mem hne) rfl
          · exact List.cons_ne_nil x xs hl
        rw [hcz, if_neg hlast]
        simp
      | cons y ys =>
        -- the head of the dropWhile part is the first newline
        have hpy : y = '\n' := by
          have h0 : 0 < ((x :: xs).dropWhile (fun a => a != '\n')).length := by
            rw [hdw]; simp
          have := List.dropWhile_get_zero_not (fun a => a != '\n') (x :: xs) h0
          rw [List.get_eq_getElem] at this
          simp [hdw] at this
          exact this
        subst hpy
        have hgen : ∀ (a b : List Char), (a ++ b).drop (a.length + 1) = b.drop 1 := by
          intro a b
          rw [← List.drop_drop, List.drop_left]
        set t := (x :: xs).takeWhile (fun a => a != '\n') with ht
        have hs2 : x :: xs = t ++ '\n' :: ys := by
          conv_lhs => rw [← hsd]
          rw [hdw]
        have hdropys : (x :: xs).drop (t.length + 1) = ys := by
          rw [hs2, hgen]
          rfl
        have hyslen : ys.length ≤ N := by
          have hlen := congrArg List.length hs2
          simp only [List.length_append, List.length_cons] at hlen hs
          omega
        rw [splitLines_cons, ← ht, hdropys, List.length_cons]
        rw [ih ys hyslen]
        have hcnt : countNewlines (x :: xs)
            = countNewlines ys + 1 := by
          rw [hs2, countNewlines_append]
          have h1 : countNewlines t = 0 :=
            countNewlines_eq_zero _ (newline_notMem_takeWhile (x :: xs))
          have h2 : countNewlines ('\n' :: ys) = 1 + countNewlines ys := by
            simp [countNewlines]
          rw [h1, h2]
          omega
        rw [hcnt]
        -- the end-of-list condition agrees between the whole list and ys
        cases ys with
        | nil =>
          have hl : (x :: xs).getLast? = some '\n' := by
            rw [hs2]
            exact List.getLast?_append_cons _ '\n' []
          rw [if_pos (Or.inl hl), if_pos (Or.inr rfl)]
        | cons z zs =>
          have hl : (x :: xs).getLast? = (z :: zs).getLast? := by
            rw [hs2, List.getLast?_append_cons, List.getLast?_cons_cons]
          by_cases hzl : (z :: zs).getLast? = some '\n'
          · rw [if_pos (Or.inl (hl.trans hzl)), if_pos (Or.inl hzl)]
          · have hn1 : ¬ ((x :: xs).getLast? = some '\n' ∨ x :: xs = []) := by
              rintro (hc | hc)
              · exact hzl (hl ▸ hc)
              · exact List.cons_ne_nil x xs hc
            have hn2 : ¬ ((z :: zs).getLast? = some '\n' ∨ z :: zs = []) := by
              rintro (hc | hc)
              · exact hzl hc
              · exact List.cons_ne_nil z zs hc
            rw [if_neg hn1, if_neg hn2]

theorem splitLines_length (s : List Char) :
    (splitLines s).length
      = countNewlines s + (if s.getLast? = some '\n' ∨ s = [] then 0 else 1) :=
  splitLines_length_aux s.length s (Nat.le_refl _)
theorem In.openFile_found (codec : Codec) (fs : FS) (h : In) (name : String)
    (raw : List Char) (hfr : fsRead fs name = some raw) :
    In.openFile codec fs h name
      = Except.ok (In.openedOn name (codec.decompress raw)) := by
  unfold In.openFile In.reset_state mkIfstream
  rw [hfr]
  rfl

theorem In.openFile_missing (codec : Codec) (fs : FS) (h : In) (name : String)
    (hfr : fsRead fs name = none) :
    In.openFile codec fs h name
      = Except.error (Err.runtime_error ("Cannot read from file: " ++ name ++ ".")) := by
  unfold In.openFile In.reset_state mkIfstream
  rw [hfr]
  rfl

theorem In.mkFromFile_ok (codec : Codec) (fs : FS) (name : String) (hin : In)
    (hok : In.mkFromFile codec fs name = Except.ok hin) :
    ∃ raw, fsRead fs name = some raw
      ∧ hin = In.openedOn name (codec.decompress raw) := by
  cases hfr : fsRead fs name with
  | none =>
    unfold In.mkFromFile at hok
    rw [In.openFile_missing codec fs _ name hfr] at hok
    exact absurd hok (by simp)
  | some raw =>
    unfold In.mkFromFile at hok
    rw [In.openFile_found codec fs _ name raw hfr] at hok
    injection hok with h2
    exact ⟨raw, rfl, h2.symm⟩

theorem In.rewind_found (codec : Codec) (fs : FS) (h : In) (raw : List Char)
    (hfr : fsRead fs h.myfile = some raw) :
    In.rewind codec fs h = In.openedOn h.myfile (codec.decompress raw) := by
  unfold In.rewind In.reset_state mkIfstream
  rw [hfr]
  rfl

theorem In.count_lines_opened (codec : Codec) (fs : FS) (name : String)
    (raw : List Char) (hfr : fsRead fs name = some raw) :
    In.count_lines codec fs (In.openedOn name (codec.decompress raw))
      = ((splitLines (codec.decompress raw)).length,
         In.openedOn name (codec.decompress raw)) := by
  have h1 : (countLoop ((In.openedOn name (codec.decompress raw)).loopFuel)
      (In.openedOn name (codec.decompress raw)) 0).1
      = (splitLines (codec.decompress raw)).length := by
    have := countLoop_run ((codec.decompress raw).length + 2)
      (codec.decompress raw) 0 0 Flags.goodbit name
      (by rw [List.drop_zero])
    rw [List.drop_zero, Nat.zero_add] at this
    exact this
  have hm : ((countLoop ((In.openedOn name (codec.decompress raw)).loopFuel)
      (In.openedOn name (codec.decompress raw)) 0).2).myfile = name :=
    countLoop_myfile _ _ _
  have h2 : In.rewind codec fs
      ((countLoop ((In.openedOn name (codec.decompress raw)).loopFuel)
        (In.openedOn name (codec.decompress raw)) 0).2)
      = In.openedOn name (codec.decompress raw) := by
    rw [In.rewind_found codec fs _ raw (by rw [hm]; exact hfr), hm]
  unfold In.count_lines
  show ((countLoop ((In.openedOn name (codec.decompress raw)).loopFuel)
        (In.openedOn name (codec.decompress raw)) 0).1,
      In.rewind codec fs
        ((countLoop ((In.openedOn name (codec.decompress raw)).loopFuel)
          (In.openedOn name (codec.decompress raw)) 0).2))
      = ((splitLines (codec.decompress raw)).length,
         In.openedOn name (codec.decompress raw))
  rw [h1, h2]

/-! ### Claim theorems -/

/-- C1: for every typed value moved through the generic operators, a runtime
error is raised if and only if the resulting view-stream state is a hard
failure (neither good nor end-of-stream); end-of-stream alone never raises. -/
theorem generic_ops_raise_iff_hard_failure :
    (∀ (h : Out) (ty : String) (r : List Char),
      raises (outShift h ty r) = true ↔ Flags.hardFailure (Out.writeRaw h r).oflags)
    ∧ (∀ (ext : In → In) (ty : String) (h : In),
      raises (inShift ext ty h) = true ↔ Flags.hardFailure (ext h).iflags) := by
  constructor
  · intro h ty r
    unfold outShift Flags.hardFailure
    cases hgood : (Out.writeRaw h r).oflags.good <;>
      cases heof : (Out.writeRaw h r).oflags.eofbit <;>
        simp [hgood, heof, raises]
  · intro ext ty h
    unfold inShift Flags.hardFailure
    cases hgood : (ext h).iflags.good <;>
      cases heof : (ext h).iflags.eofbit <;>
        simp [hgood, heof, raises]

/-- C2 counterexample: for the file "a.txt" holding the single byte `a`
(no trailing newline), `count_lines` returns 1 while the newline count is 0. -/
theorem count_lines_newline_cex :
    (In.mkFromFile idCodec [("a.txt", ['a'])] "a.txt").map
        (fun h => (In.count_lines idCodec [("a.txt", ['a'])] h).1)
      ≠ Except.ok (countNewlines ['a']) := by decide

/-- C2 amended: for every readable file, `count_lines` returns the number of
getline records — the newline count when the decompressed content is empty or
ends with a newline, and one more otherwise — and afterwards the handle is
rewound so that the next read starts at byte 0. -/
theorem count_lines_records_and_rewind (codec : Codec) (fs : FS) (name : String)
    (hin : In) (hok : In.mkFromFile codec fs name = Except.ok hin) :
    ∃ raw, fsRead fs name = some raw
      ∧ (In.count_lines codec fs hin).1
          = countNewlines (codec.decompress raw)
            + (if (codec.decompress raw).getLast? = some '\n' ∨ codec.decompress raw = []
               then 0 else 1)
      ∧ (In.count_lines codec fs hin).2 = In.openedOn name (codec.decompress raw) := by
  obtain ⟨raw, hfr, hh⟩ := In.mkFromFile_ok codec fs name hin hok
  subst hh
  refine ⟨raw, hfr, ?_, ?_⟩
  · rw [In.count_lines_opened codec fs name raw hfr]
    exact splitLines_length _
  · rw [In.count_lines_opened codec fs name raw hfr]

/-- Witness for C2's amended theorem at a concrete two-line file. -/
theorem count_lines_records_and_rewind_witness :
    ∃ raw, fsRead [("d.txt", ['a', '\n', 'b'])] "d.txt" = some raw
      ∧ (In.count_lines idCodec [("d.txt", ['a', '\n', 'b'])]
            (In.openedOn "d.txt" ['a', '\n', 'b'])).1
          = countNewlines (idCodec.decompress raw)
            + (if (idCodec.decompress raw).getLast? = some '\n' ∨ idCodec.decompress raw = []
               then 0 else 1)
      ∧ (In.count_lines idCodec [("d.txt", ['a', '\n', 'b'])]
            (In.openedOn "d.txt" ['a', '\n', 'b'])).2
          = In.openedOn "d.txt" (idCodec.decompress raw) :=
  count_lines_records_and_rewind idCodec [("d.txt", ['a', '\n', 'b'])] "d.txt"
    (In.openedOn "d.txt" ['a', '\n', 'b']) (by decide)

/-- C3 counterexample: a successful `Out::open("a.txt")` on a default handle
leaves `filename()` empty instead of returning "a.txt". -/
theorem out_open_filename_cex :
    (Out.openFile idCodec ⟨[], fun _ => true⟩ Out.mkDefault "a.txt").map
        (fun p => p.1.myfile)
      ≠ Except.ok "a.txt" := by decide

/-- C3 amended: `Out::open` never updates the stored file name — after a
successful open, `filename()` still returns whatever was stored before; only
the filename constructor stores the name. -/
theorem out_open_preserves_stored_name :
    (∀ (codec : Codec) (w : World) (h : Out) (name : String) (h1 : Out) (w1 : World),
      Out.openFile codec w h name = Except.ok (h1, w1) → h1.myfile = h.myfile)
    ∧ (∀ (w : World) (name : String) (h1 : Out) (w1 : World),
      Out.mkFromFile w name = Except.ok (h1, w1) → h1.myfile = name) := by
  constructor
  · intro codec w h name h1 w1 hok
    unfold Out.openFile at hok
    cases hb : h.byname with
    | none =>
      rw [hb] at hok
      dsimp only at hok
      split at hok
      · exact absurd hok (by simp)
      · injection hok with hp
        injection hp with e1 e2
        rw [← e1]
    | some b =>
      rw [hb] at hok
      dsimp only at hok
      split at hok
      · exact absurd hok (by simp)
      · injection hok with hp
        injection hp with e1 e2
        rw [← e1]
  · intro w name h1 w1 hok
    unfold Out.mkFromFile at hok
    dsimp only at hok
    split at hok
    · exact absurd hok (by simp)
    · injection hok with hp
      injection hp with e1 e2
      rw [← e1]

/-- Witness for C3's amended theorem at concrete handles. -/
theorem out_open_preserves_stored_name_witness :
    (⟨some ⟨"a.txt", none, [], Flags.goodbit⟩, OBuf.ownedBuf, Flags.goodbit, ""⟩ : Out).myfile
        = Out.mkDefault.myfile
    ∧ (⟨some ⟨"b.txt", none, [], Flags.goodbit⟩, OBuf.ownedBuf, Flags.goodbit, "b.txt"⟩ : Out).myfile
        = "b.txt" :=
  ⟨out_open_preserves_stored_name.1 idCodec ⟨[], fun _ => true⟩ Out.mkDefault "a.txt"
      ⟨some ⟨"a.txt", none, [], Flags.goodbit⟩, OBuf.ownedBuf, Flags.goodbit, ""⟩
      ⟨[], fun _ => true⟩ rfl,
   out_open_preserves_stored_name.2 ⟨[], fun _ => true⟩ "b.txt"
      ⟨some ⟨"b.txt", none, [], Flags.goodbit⟩, OBuf.ownedBuf, Flags.goodbit, "b.txt"⟩
      ⟨[], fun _ => true⟩ rfl⟩

/-- C4: opening a missing input file raises a plain `std::runtime_error`, not
the `cannot_read_from_file` kind of the exception taxonomy that carries the
same message — evaluated at the failing input "missing.txt". -/
theorem in_open_runtime_error_kind :
    In.mkFromFile idCodec [] "missing.txt"
        = Except.error (Err.runtime_error "Cannot read from file: missing.txt.")
      ∧ Err.runtime_error "Cannot read from file: missing.txt."
          ≠ Err.cannot_read_from_file "missing.txt" := by
  exact ⟨by decide, by decide⟩

/-- C5 counterexample: move-construction from a source with an empty file name
leaves the new view aliasing the standard output buffer, not standard input. -/
theorem move_empty_binds_stdout_cex :
    (In.mkMove idCodec [] In.mkDefault).map (fun h => h.ibuf)
        = Except.ok IBuf.stdoutBuf
    ∧ IBuf.stdoutBuf ≠ IBuf.stdinBuf := by decide

/-- C5 amended: when the source's stored file name is empty, the
move-constructed handle owns no stream, has an empty name, and its view stays
aliased to the `std::cout` buffer used to initialise it (not standard input). -/
theorem move_from_empty_name (codec : Codec) (fs : FS) (src : In)
    (h : src.myfile = "") :
    In.mkMove codec fs src = Except.ok ⟨none, IBuf.stdoutBuf, Flags.goodbit, ""⟩ := by
  unfold In.mkMove
  rw [if_pos h]

/-- Witness for C5's amended theorem on a default-constructed source. -/
theorem move_from_empty_name_witness :
    In.mkMove idCodec [] In.mkDefault
      = Except.ok ⟨none, IBuf.stdoutBuf, Flags.goodbit, ""⟩ :=
  move_from_empty_name idCodec [] In.mkDefault rfl

/-- C6: after `Out::close()` in any prior state, the view buffer is the
standard output buffer, the owned stream is released, and the view state
equals the default stream's state. -/
theorem out_close_resets_to_stdout (codec : Codec) (stdoutFl : Flags)
    (h : Out) (w : World) :
    ((Out.close codec stdoutFl h w).1).obuf = OBuf.stdoutBuf
    ∧ ((Out.close codec stdoutFl h w).1).byname = none
    ∧ ((Out.close codec stdoutFl h w).1).oflags = stdoutFl := by
  refine ⟨rfl, rfl, ?_⟩
  show Flags.goodbit.orWith stdoutFl = stdoutFl
  cases stdoutFl
  simp [Flags.orWith, Flags.goodbit]

/-- C7: running `count_lines` and then reading the whole content yields the
same sequence of lines as reading without the prior `count_lines` call. -/
theorem count_lines_rewind_idempotent (codec : Codec) (fs : FS) (name : String)
    (hin : In) (hok : In.mkFromFile codec fs name = Except.ok hin) :
    In.readLines ((In.count_lines codec fs hin).2) = In.readLines hin := by
  obtain ⟨raw, hfr, hh⟩ := In.mkFromFile_ok codec fs name hin hok
  subst hh
  rw [In.count_lines_opened codec fs name raw hfr]

/-- Witness for C7 at a concrete two-line file. -/
theorem count_lines_rewind_idempotent_witness :
    In.readLines ((In.count_lines idCodec [("d.txt", ['a', '\n', 'b'])]
        (In.openedOn "d.txt" ['a', '\n', 'b'])).2)
      = In.readLines (In.openedOn "d.txt" ['a', '\n', 'b']) :=
  count_lines_rewind_idempotent idCodec [("d.txt", ['a', '\n', 'b'])] "d.txt"
    (In.openedOn "d.txt" ['a', '\n', 'b']) (by decide)

/-- C8: bytes written through `open_compressed` and closed are reproduced
exactly when the file is read back through `In::open`, which auto-detects the
compression — assuming the codec collaborator satisfies its round-trip
contract. -/
theorem compressed_roundtrip (codec : Codec)
    (hc : ∀ kind level d, codec.decompress (codec.compress kind level d) = d)
    (w : World) (name : String) (kind level : Nat) (data : List Char)
    (stdoutFl : Flags) (hw : w.writable name = true) :
    ∃ h1 w1, Out.open_compressed codec w Out.mkDefault name kind level
        = Except.ok (h1, w1)
      ∧ In.mkFromFile codec
          ((Out.close codec stdoutFl (Out.writeRaw h1 data) w1).2).files name
          = Except.ok (In.openedOn name data)
      ∧ (In.openedOn name data).readAllBytes = data := by
  refine ⟨⟨some ⟨name, some (kind, level), [], Flags.goodbit⟩, OBuf.ownedBuf,
      Flags.goodbit, ""⟩, w, ?_, ?_, ?_⟩
  · unfold Out.open_compressed mkOfstream Out.mkDefault
    dsimp only
    rw [hw]
    rfl
  · have hfiles : ((Out.close codec stdoutFl
        (Out.writeRaw ⟨some ⟨name, some (kind, level), [], Flags.goodbit⟩,
          OBuf.ownedBuf, Flags.goodbit, ""⟩ data) w).2).files
        = (name, codec.compress kind level data) :: w.files := by
      unfold Out.close Out.writeRaw commitOut OwnedOut.encode
      rfl
    rw [hfiles]
    have hfr : fsRead ((name, codec.compress kind level data) :: w.files) name
        = some (codec.compress kind level data) := by
      unfold fsRead
      rw [if_pos rfl]
    unfold In.mkFromFile
    rw [In.openFile_found codec ((name, codec.compress kind level data) :: w.files)
        ⟨none, IBuf.stdoutBuf, Flags.goodbit, name⟩ name
        (codec.compress kind level data) hfr, hc]
  · rfl
end Cxxio

namespace Cxxio

/-- Witness for C8 with the identity codec, which satisfies the round-trip
contract definitionally. -/
theorem compressed_roundtrip_witness :
    ∃ h1 w1, Out.open_compressed idCodec ⟨[], fun _ => true⟩ Out.mkDefault "z.gz" 1 6
        = Except.ok (h1, w1)
      ∧ In.mkFromFile idCodec
          ((Out.close idCodec Flags.goodbit (Out.writeRaw h1 ['h', 'i']) w1).2).files "z.gz"
          = Except.ok (In.openedOn "z.gz" ['h', 'i'])
      ∧ (In.openedOn "z.gz" ['h', 'i']).readAllBytes = ['h', 'i'] :=
  compressed_roundtrip idCodec (fun _ _ _ => rfl) ⟨[], fun _ => true⟩ "z.gz" 1 6
    ['h', 'i'] Flags.goodbit rfl

/-- C9: closing either handle leaves the stored file name unchanged even
though the owned stream is released. -/
theorem close_preserves_filename :
    (∀ h : In, (In.close h).myfile = h.myfile ∧ (In.close h).byname = none)
    ∧ (∀ (codec : Codec) (stdoutFl : Flags) (h : Out) (w : World),
        ((Out.close codec stdoutFl h w).1).myfile = h.myfile
        ∧ ((Out.close codec stdoutFl h w).1).byname = none) :=
  ⟨fun _ => ⟨rfl, rfl⟩, fun _ _ _ _ => ⟨rfl, rfl⟩⟩

/-- C10: `In::rewind` is total and performs no failure check — when the stored
name can no longer be opened it returns normally with the view in a failed
state, while `In::open` on the same name raises. -/
theorem rewind_no_raise (codec : Codec) (fs : FS) (h : In)
    (hmiss : fsRead fs h.myfile = none) :
    (In.rewind codec fs h).iflags.failQ = true
    ∧ In.openFile codec fs h h.myfile
        = Except.error (Err.runtime_error ("Cannot read from file: " ++ h.myfile ++ ".")) := by
  constructor
  · unfold In.rewind In.reset_state mkIfstream
    rw [hmiss]
    rfl
  · exact In.openFile_missing codec fs h h.myfile hmiss

/-- Witness for C10 on a handle whose stored name is not in the file system. -/
theorem rewind_no_raise_witness :
    (In.rewind idCodec [] ⟨none, IBuf.stdinBuf, Flags.goodbit, "gone.txt"⟩).iflags.failQ = true
    ∧ In.openFile idCodec [] ⟨none, IBuf.stdinBuf, Flags.goodbit, "gone.txt"⟩ "gone.txt"
        = Except.error (Err.runtime_error ("Cannot read from file: " ++ "gone.txt" ++ ".")) :=
  rewind_no_raise idCodec [] ⟨none, IBuf.stdinBuf, Flags.goodbit, "gone.txt"⟩ rfl

end Cxxio
